import Mathlib

/-
Verification of the iterative-stability core: the generic iteration engine
`is_stable`, the space mapper (`SpaceParams`, `from_screen_point_to_cartesian`),
the per-pixel Mandelbrot/Julia generators, and the batch offload path.

Modelling conventions:
- Machine integers (`u64`, `i32`) are modelled as `ℕ` / `ℤ`; all index values
  exercised here are small and nonnegative, so no wrap-around is reachable.
- The `f32` components of `Vec2` (space-mapper arithmetic) are modelled exactly
  over `ℚ`; the claims about the space mapper concern the algebraic formulas,
  not rounding.
- The generic float type `F : Float` of the per-pixel generators is modelled by
  `Fl`: exact rationals extended with the two infinities and NaN, with
  IEEE-754-style comparison and arithmetic on the non-finite values.
- Rust's unbounded `loop` in `is_stable` is rendered with an explicit fuel
  argument equal to `max_iterations - i`; the fuel-exhaustion branch is proved
  unreachable from the entry state, which is the termination statement.
-/

namespace IterativeStability

/-- Why an `is_stable` run returned: the stability check rejected the value
(`escaped`), the iteration budget was exhausted (`capped`), two consecutive
values were equal (`fixedPoint`), or the fuel of the loop model ran out
(`fuelOut`, proved unreachable from the entry state). -/
inductive ExitReason where
  | escaped
  | capped
  | fixedPoint
  | fuelOut
deriving DecidableEq, Repr

/-- Loop body of `is_stable` (src/iterative-stability/src/lib.rs, lines 22-35).
State: current value `n`, iteration counter `i`, previously produced value
`last`. The `fuel` argument renders the unbounded `loop`; it is maintained at
`max_iterations - i`, so the `fuel = 0` fallback coincides with the
`i == max_iterations` test and is never reached past it. -/
def is_stable.go {U : Type} [DecidableEq U] (f : U → U) (p : U → Bool)
    (max_iterations : ℕ) : ℕ → U → ℕ → Option U → ℕ × Bool
  | fuel, n, i, last =>
    if p n = false then (i, false)
    else if i = max_iterations then (i, true)
    else
      let n2 := f n
      if last = some n2 then (i, true)
      else
        match fuel with
        | 0 => (i, true)
        | fuel' + 1 => is_stable.go f p max_iterations fuel' n2 (i + 1) (some n2)

/-- The iteration engine `is_stable` (src/iterative-stability/src/lib.rs,
lines 8-36): iterate `f` from `initial` until `stability_check` rejects the
value (unstable), the counter reaches `max_iterations` (stable), or the new
value equals the previous one (stable, fixed point). -/
def is_stable {U : Type} [DecidableEq U] (f : U → U) (initial : U)
    (stability_check : U → Bool) (max_iterations : ℕ) : ℕ × Bool :=
  is_stable.go f stability_check max_iterations max_iterations initial 0 none

/-- Result of an instrumented engine run: the returned pair plus the number of
applications of the transition function and the exit reason. -/
structure TraceResult where
  count : ℕ
  stable : Bool
  apps : ℕ
  reason : ExitReason
deriving DecidableEq, Repr

/-- Instrumented copy of `is_stable.go`: identical control flow, additionally
tallying the applications of `f` and recording the exit reason. -/
def isStableTrace.go {U : Type} [DecidableEq U] (f : U → U) (p : U → Bool)
    (max_iterations : ℕ) : ℕ → U → ℕ → Option U → ℕ → TraceResult
  | fuel, n, i, last, apps =>
    if p n = false then ⟨i, false, apps, .escaped⟩
    else if i = max_iterations then ⟨i, true, apps, .capped⟩
    else
      let n2 := f n
      if last = some n2 then ⟨i, true, apps + 1, .fixedPoint⟩
      else
        match fuel with
        | 0 => ⟨i, true, apps + 1, .fuelOut⟩
        | fuel' + 1 =>
            isStableTrace.go f p max_iterations fuel' n2 (i + 1) (some n2) (apps + 1)

/-- Instrumented engine run from the entry state of `is_stable`. -/
def isStableTrace {U : Type} [DecidableEq U] (f : U → U) (initial : U)
    (stability_check : U → Bool) (max_iterations : ℕ) : TraceResult :=
  isStableTrace.go f stability_check max_iterations max_iterations initial 0 none 0

/-- Loop written from the spec's words (§4.1, steps 1-5): keep `n`, `i`,
`previous`; reject via the predicate, stop at the budget, and declare a fixed
point when `previous` is set and `transition n = n`. (The spec sets
`previous` to the pre-transition value, so when set it equals the current `n`
at the top of the loop; the fixed-point test compares the new value with the
pre-transition one.) Fuel renders the unbounded loop as in `is_stable.go`. -/
def specEvaluate.go {U : Type} [DecidableEq U] (transition : U → U)
    (stability_predicate : U → Bool) (max_iterations : ℕ) :
    ℕ → U → ℕ → Option U → ℕ × Bool
  | fuel, n, i, previous =>
    if stability_predicate n = false then (i, false)
    else if i = max_iterations then (i, true)
    else
      let n' := transition n
      if previous.isSome = true ∧ n' = n then (i, true)
      else
        match fuel with
        | 0 => (i, true)
        | fuel' + 1 =>
            specEvaluate.go transition stability_predicate max_iterations
              fuel' n' (i + 1) (some n)

/-- The spec's `evaluate` contract (§4.1), starting from
`n = initial, i = 0, previous = none`. -/
def specEvaluate {U : Type} [DecidableEq U] (transition : U → U) (initial : U)
    (stability_predicate : U → Bool) (max_iterations : ℕ) : ℕ × Bool :=
  specEvaluate.go transition stability_predicate max_iterations
    max_iterations initial 0 none

/-- Model of the generic float type `F : Float` of the generators: finite
values are exact rationals; the two infinities and NaN are explicit. -/
inductive Fl where
  | fin : ℚ → Fl
  | inf : Fl
  | negInf : Fl
  | nan : Fl
deriving DecidableEq, Repr

/-- A value is finite when it is neither an infinity nor NaN. -/
def Fl.isFinite : Fl → Bool
  | .fin _ => true
  | _ => false

/-- IEEE-754 `<`: any comparison with NaN is false; `-∞ < x` for every
non-NaN `x ≠ -∞`; `+∞` is below nothing; finite values compare as rationals. -/
def Fl.lt : Fl → Fl → Bool
  | .nan, _ => false
  | _, .nan => false
  | .negInf, .negInf => false
  | .negInf, _ => true
  | _, .negInf => false
  | .inf, _ => false
  | .fin _, .inf => true
  | .fin a, .fin b => decide (a < b)

/-- IEEE-754 negation. -/
def Fl.neg : Fl → Fl
  | .fin a => .fin (-a)
  | .inf => .negInf
  | .negInf => .inf
  | .nan => .nan

/-- IEEE-754 addition on the model: NaN absorbs, `∞ + (-∞) = NaN`, an
infinity absorbs finite values, finite addition is exact. -/
def Fl.add : Fl → Fl → Fl
  | .nan, _ => .nan
  | _, .nan => .nan
  | .inf, .negInf => .nan
  | .negInf, .inf => .nan
  | .inf, _ => .inf
  | _, .inf => .inf
  | .negInf, _ => .negInf
  | _, .negInf => .negInf
  | .fin a, .fin b => .fin (a + b)

/-- IEEE-754 multiplication on the model: NaN absorbs, `±∞ * 0 = NaN`,
otherwise infinities follow the sign rules; finite multiplication is exact. -/
def Fl.mul : Fl → Fl → Fl
  | .nan, _ => .nan
  | _, .nan => .nan
  | .fin a, .fin b => .fin (a * b)
  | .inf, .fin b => if 0 < b then .inf else if b < 0 then .negInf else .nan
  | .negInf, .fin b => if 0 < b then .negInf else if b < 0 then .inf else .nan
  | .fin a, .inf => if 0 < a then .inf else if a < 0 then .negInf else .nan
  | .fin a, .negInf => if 0 < a then .negInf else if a < 0 then .inf else .nan
  | .inf, .inf => .inf
  | .inf, .negInf => .negInf
  | .negInf, .inf => .negInf
  | .negInf, .negInf => .inf

/-- IEEE-754 subtraction, `a - b = a + (-b)`. -/
def Fl.sub (a b : Fl) : Fl := a.add b.neg

/-- Model of `num_complex::Complex<F>`: real and imaginary components. -/
structure Cplx where
  re : Fl
  im : Fl
deriving DecidableEq, Repr

/-- Componentwise complex addition. -/
def Cplx.add (a b : Cplx) : Cplx := ⟨a.re.add b.re, a.im.add b.im⟩

/-- Complex multiplication: `re = a.re*b.re - a.im*b.im`,
`im = a.re*b.im + a.im*b.re`. -/
def Cplx.mul (a b : Cplx) : Cplx :=
  ⟨(a.re.mul b.re).sub (a.im.mul b.im), (a.re.mul b.im).add (a.im.mul b.re)⟩

/-- The complex unit. -/
def Cplx.one : Cplx := ⟨.fin 1, .fin 0⟩

/-- Model of `Complex::powu`: a left-associated product of `n` copies of `c`
(no spurious factor of one for `n ≥ 1`, matching the exponentiation by
squaring of `num_traits::pow` at the exponent 2 used by the generators). -/
def Cplx.powu (c : Cplx) : ℕ → Cplx
  | 0 => Cplx.one
  | 1 => c
  | n + 2 => (c.powu (n + 1)).mul c

/-- The generators' stability predicate
(src/iterative-stability/src/lib.rs, lines 189 and 211):
`f.re < F::infinity() && f.im < F::infinity()` under IEEE comparison. -/
def float_stability_check (f : Cplx) : Bool :=
  f.re.lt Fl.inf && f.im.lt Fl.inf

/-- Predicate written from the spec's words (§4.3): accept `z` iff
`|re(z)| < ∞ ∧ |im(z)| < ∞`, i.e. reject any non-finite component. -/
def spec_finite_check (f : Cplx) : Bool :=
  f.re.isFinite && f.im.isFinite

/-- Model of `SpaceParams` (src/iterative-stability/src/lib.rs, lines
129-134); the `Vec2` components are modelled exactly over `ℚ`. -/
structure SpaceParams where
  scale : ℚ × ℚ
  offset : ℚ × ℚ
  delta : ℚ × ℚ
deriving DecidableEq, Repr

/-- Model of `SpaceParams::new` (src/iterative-stability/src/lib.rs, lines
136-149): `scale = |upper - lower|` per axis, `offset = (lower + upper) / 2`,
`delta = scale / resolution`. -/
def SpaceParams.new (lower upper : ℚ × ℚ) (resolution : ℤ × ℤ) : SpaceParams :=
  let scale : ℚ × ℚ := (|upper.1 - lower.1|, |upper.2 - lower.2|)
  let offset : ℚ × ℚ := ((lower.1 + upper.1) / 2, (lower.2 + upper.2) / 2)
  let delta : ℚ × ℚ := (scale.1 / (resolution.1 : ℚ), scale.2 / (resolution.2 : ℚ))
  ⟨scale, offset, delta⟩

/-- Model of `from_screen_point_to_cartesian` (src/iterative-stability/src/
lib.rs, lines 216-230): split the linear index into a column and a row,
recenter with truncating `i32` division (`Int.tdiv`), then map into parametric
space. -/
def from_screen_point_to_cartesian (index : ℤ) (resolution : ℤ × ℤ)
    (sp : SpaceParams) : ℚ × ℚ :=
  let screen_x := Int.tmod index resolution.1
  let screen_y := Int.tdiv index resolution.1
  let cart : ℤ × ℤ :=
    (screen_x - Int.tdiv resolution.1 2, -screen_y + Int.tdiv resolution.2 2)
  ((cart.1 : ℚ) * sp.delta.1 + sp.offset.1,
   (cart.2 : ℚ) * sp.delta.2 + sp.offset.2)

/-- Model of `from_screen_pixel_mandelbrot` (src/iterative-stability/src/
lib.rs, lines 174-192): run the engine with `transition z = z^2 + c` where
`c` is the pixel's parametric coordinate, initial value `0`, the float
stability check, and the cap 1000. -/
def from_screen_pixel_mandelbrot (index : ℤ) (resolution : ℤ × ℤ)
    (sp : SpaceParams) : ℕ × Bool :=
  let cart := from_screen_point_to_cartesian index resolution sp
  is_stable
    (fun c => (c.powu 2).add ⟨Fl.fin cart.1, Fl.fin cart.2⟩)
    ⟨Fl.fin 0, Fl.fin 0⟩
    float_stability_check
    1000

/-- Model of `from_screen_pixel_julia` (src/iterative-stability/src/lib.rs,
lines 194-214): run the engine with `transition z = z^2 + c_` for the
caller-supplied constant `c_`, initial value the pixel's parametric
coordinate, the float stability check, and the cap 1000. -/
def from_screen_pixel_julia (index : ℤ) (resolution : ℤ × ℤ)
    (sp : SpaceParams) (c_ : Fl × Fl) : ℕ × Bool :=
  let cart := from_screen_point_to_cartesian index resolution sp
  is_stable
    (fun c => (c.powu 2).add ⟨c_.1, c_.2⟩)
    ⟨Fl.fin cart.1, Fl.fin cart.2⟩
    float_stability_check
    1000

/-- Model of `wgpu_from_screen_pixels_mandelbrot` (src/iterative-stability/
src/lib.rs, lines 151-172). The accelerated backend `wgpu::execute_gpu` lives
in a module outside the sources at hand, so it is injected as a function from
the coordinate batch to the raw count batch (as §9 of the spec recommends).
Each raw count `i` is reinterpreted as `(i, true)` when `i == 500` and
`(i, false)` otherwise. -/
def wgpu_from_screen_pixels_mandelbrot (gpu : List (ℚ × ℚ) → List ℕ)
    (index : List ℤ) (resolution : ℤ × ℤ) (sp : SpaceParams) :
    List (ℕ × Bool) :=
  let cart := index.map (fun i => from_screen_point_to_cartesian i resolution sp)
  let results := gpu cart
  results.map (fun i => if i = 500 then (i, true) else (i, false))

/-- Modelled from the spec: the accelerated backend `wgpu::execute_gpu`
(declared in lib.rs line 160 but defined in a module missing from the sources
at hand) returns, per coordinate and in order, the raw escape-time iteration
count for that coordinate (§4.4); modelled by the engine's own Mandelbrot
count at the cap 1000. -/
def execute_gpu (coords : List (ℚ × ℚ)) : List ℕ :=
  coords.map (fun c =>
    (is_stable
      (fun z => (z.powu 2).add ⟨Fl.fin c.1, Fl.fin c.2⟩)
      ⟨Fl.fin 0, Fl.fin 0⟩
      float_stability_check
      1000).1)

/-- Modelled from the spec: `SpaceParams::calc_space_params`, called by the
sequential (non-`parallel`) modules (lib.rs lines 51 and 122) but not defined
in the sources at hand; per §4.2, `scale = upper - lower` per axis,
`offset = (lower + upper) / 2`, `delta = scale / resolution`, with the bounds
supplied per axis as `(lower, upper)` pairs. -/
def SpaceParams.calc_space_params (x_bounds y_bounds : ℚ × ℚ)
    (resolution : ℤ × ℤ) : SpaceParams :=
  let scale : ℚ × ℚ := (x_bounds.2 - x_bounds.1, y_bounds.2 - y_bounds.1)
  let offset : ℚ × ℚ :=
    ((x_bounds.1 + x_bounds.2) / 2, (y_bounds.1 + y_bounds.2) / 2)
  let delta : ℚ × ℚ := (scale.1 / (resolution.1 : ℚ), scale.2 / (resolution.2 : ℚ))
  ⟨scale, offset, delta⟩

/-- Model of the sequential `mandelbrot::calc_screen_space`
(src/iterative-stability/src/lib.rs, lines 43-55, without the `parallel`
feature): map `from_screen_pixel_mandelbrot` over the pixel indices
`0 .. width*height` in order. -/
def mandelbrot_calc_screen_space (x_bounds y_bounds : ℚ × ℚ)
    (resolution : ℤ × ℤ) : List (ℕ × Bool) :=
  let sp := SpaceParams.calc_space_params x_bounds y_bounds resolution
  (List.range (resolution.1 * resolution.2).toNat).map
    (fun idx : ℕ => from_screen_pixel_mandelbrot (idx : ℤ) resolution sp)

/-- Model of the parallel `mandelbrot::calc_screen_space`
(src/iterative-stability/src/lib.rs, lines 65-81, with the `parallel`
feature): build `SpaceParams::new` from the bounds and delegate the whole
index range to `wgpu_from_screen_pixels_mandelbrot`; parameterized by the
injected backend. -/
def mandelbrot_calc_screen_space_par (gpu : List (ℚ × ℚ) → List ℕ)
    (lower upper : ℚ × ℚ) (resolution : ℤ × ℤ) : List (ℕ × Bool) :=
  let sp := SpaceParams.new lower upper resolution
  wgpu_from_screen_pixels_mandelbrot gpu
    ((List.range (resolution.1 * resolution.2).toNat).map (fun n : ℕ => (n : ℤ)))
    resolution sp

end IterativeStability

namespace IterativeStability

lemma is_stable_fixed_immediate {U : Type} [DecidableEq U] (f : U → U)
    (p : U → Bool) (z : U) (hp : p z = true) (hf : f z = z) (m : ℕ)
    (hm : 1 ≤ m) : is_stable f z p m = (1, true) := by
  obtain ⟨k, rfl⟩ : ∃ k, m = k + 1 := ⟨m - 1, by omega⟩
  rw [is_stable]
  rw [is_stable.go]
  simp only [hp, hf]
  rw [if_neg (fun h => Option.noConfusion h), if_neg (by omega : ¬ (0 : ℕ) = k + 1),
    if_neg (by decide : ¬ (true = false))]
  rw [is_stable.go]
  simp only [hp, hf]
  rcases eq_or_ne k 0 with rfl | hk
  · norm_num
  · rw [if_neg (by decide : ¬ (true = false)), if_neg (by omega : ¬ (0 + 1 : ℕ) = k + 1)]
    norm_num

lemma float_check_zero : float_stability_check ⟨Fl.fin 0, Fl.fin 0⟩ = true := by
  simp [float_stability_check, Fl.lt]

lemma cplx_zero_step :
    ((Cplx.mk (Fl.fin 0) (Fl.fin 0)).powu 2).add ⟨Fl.fin 0, Fl.fin 0⟩ =
      ⟨Fl.fin 0, Fl.fin 0⟩ := by
  simp [Cplx.powu, Cplx.mul, Cplx.add, Cplx.one, Fl.mul, Fl.add, Fl.sub, Fl.neg]

lemma engine_zero :
    is_stable (fun c : Cplx => (c.powu 2).add ⟨Fl.fin 0, Fl.fin 0⟩)
      ⟨Fl.fin 0, Fl.fin 0⟩ float_stability_check 1000 = (1, true) :=
  is_stable_fixed_immediate (fun c : Cplx => (c.powu 2).add ⟨Fl.fin 0, Fl.fin 0⟩)
    float_stability_check ⟨Fl.fin 0, Fl.fin 0⟩ float_check_zero cplx_zero_step
    1000 (by norm_num)

lemma cart_origin :
    from_screen_point_to_cartesian 0 (1, 1)
      (SpaceParams.calc_space_params (-2, 2) (-2, 2) (1, 1)) = (0, 0) := by
  simp only [from_screen_point_to_cartesian, SpaceParams.calc_space_params]
  norm_num [show Int.tmod 0 1 = 0 from by decide, show Int.tdiv 0 1 = 0 from by decide,
    show Int.tdiv 1 2 = 0 from by decide]

lemma cart_origin_par :
    from_screen_point_to_cartesian 0 (1, 1)
      (SpaceParams.new (-2, -2) (2, 2) (1, 1)) = (0, 0) := by
  simp only [from_screen_point_to_cartesian, SpaceParams.new]
  norm_num [show Int.tmod 0 1 = 0 from by decide, show Int.tdiv 0 1 = 0 from by decide,
    show Int.tdiv 1 2 = 0 from by decide]

end IterativeStability

namespace IterativeStability

lemma go_eq_spec {U : Type} [DecidableEq U] (f : U → U) (p : U → Bool) (m : ℕ) :
    ∀ fuel (n : U) (i : ℕ) (last prev : Option U),
      (last = none ∧ prev = none) ∨ (last = some n ∧ prev ≠ none) →
      specEvaluate.go f p m fuel n i prev = is_stable.go f p m fuel n i last := by
  intro fuel
  induction fuel with
  | zero =>
    intro n i last prev hinv
    rw [is_stable.go, specEvaluate.go]
    by_cases hpn : p n = false
    · rw [if_pos hpn, if_pos hpn]
    · rw [if_neg hpn, if_neg hpn]
      by_cases him : i = m
      · rw [if_pos him, if_pos him]
      · rw [if_neg him, if_neg him]
        rcases hinv with ⟨hl, hpr⟩ | ⟨hl, hpr⟩
        · subst hl; subst hpr
          rw [if_neg (fun h => Option.noConfusion h),
            if_neg (by simp : ¬((none : Option U).isSome = true ∧ f n = n))]
        · subst hl
          by_cases hfp : f n = n
          · rw [if_pos ⟨Option.isSome_iff_ne_none.mpr hpr, hfp⟩,
              if_pos (by rw [hfp])]
          · rw [if_neg (fun h => hfp h.2),
              if_neg (fun h => hfp (Option.some.inj h).symm)]
  | succ fuel ih =>
    intro n i last prev hinv
    rw [is_stable.go, specEvaluate.go]
    by_cases hpn : p n = false
    · rw [if_pos hpn, if_pos hpn]
    · rw [if_neg hpn, if_neg hpn]
      by_cases him : i = m
      · rw [if_pos him, if_pos him]
      · rw [if_neg him, if_neg him]
        rcases hinv with ⟨hl, hpr⟩ | ⟨hl, hpr⟩
        · subst hl; subst hpr
          rw [if_neg (fun h => Option.noConfusion h),
            if_neg (by simp : ¬((none : Option U).isSome = true ∧ f n = n))]
          exact ih (f n) (i + 1) (some (f n)) (some n)
            (Or.inr ⟨rfl, fun h => Option.noConfusion h⟩)
        · subst hl
          by_cases hfp : f n = n
          · rw [if_pos ⟨Option.isSome_iff_ne_none.mpr hpr, hfp⟩,
              if_pos (by rw [hfp])]
          · rw [if_neg (fun h => hfp h.2),
              if_neg (fun h => hfp (Option.some.inj h).symm)]
            exact ih (f n) (i + 1) (some (f n)) (some n)
              (Or.inr ⟨rfl, fun h => Option.noConfusion h⟩)

lemma specEvaluate_eq_is_stable {U : Type} [DecidableEq U] (f : U → U)
    (initial : U) (p : U → Bool) (m : ℕ) :
    specEvaluate f initial p m = is_stable f initial p m :=
  go_eq_spec f p m m initial 0 none none (Or.inl ⟨rfl, rfl⟩)

end IterativeStability

namespace IterativeStability

lemma trace_go_proj {U : Type} [DecidableEq U] (f : U → U) (p : U → Bool) (m : ℕ) :
    ∀ fuel (n : U) (i : ℕ) (last : Option U) (apps : ℕ),
      ((isStableTrace.go f p m fuel n i last apps).count,
       (isStableTrace.go f p m fuel n i last apps).stable) =
        is_stable.go f p m fuel n i last := by
  intro fuel
  induction fuel with
  | zero =>
    intro n i last apps
    rw [isStableTrace.go, is_stable.go]
    by_cases hpn : p n = false
    · simp [hpn]
    · by_cases him : i = m
      · simp [hpn, him]
      · by_cases hfp : last = some (f n)
        · simp [hpn, him, hfp]
        · simp [hpn, him, hfp]
  | succ fuel ih =>
    intro n i last apps
    rw [isStableTrace.go, is_stable.go]
    by_cases hpn : p n = false
    · simp [hpn]
    · by_cases him : i = m
      · simp [hpn, him]
      · by_cases hfp : last = some (f n)
        · simp [hpn, him, hfp]
        · simp only [if_neg hpn, if_neg him, if_neg hfp]
          exact ih (f n) (i + 1) (some (f n)) (apps + 1)

lemma trace_go_count_le {U : Type} [DecidableEq U] (f : U → U) (p : U → Bool) (m : ℕ) :
    ∀ fuel (n : U) (i : ℕ) (last : Option U) (apps : ℕ), i ≤ m →
      (isStableTrace.go f p m fuel n i last apps).count ≤ m := by
  intro fuel
  induction fuel with
  | zero =>
    intro n i last apps hi
    rw [isStableTrace.go]
    by_cases hpn : p n = false
    · simpa [hpn] using hi
    · by_cases him : i = m
      · simp [hpn, him]
      · by_cases hfp : last = some (f n)
        · simpa [hpn, him, hfp] using hi
        · simpa [hpn, him, hfp] using hi
  | succ fuel ih =>
    intro n i last apps hi
    rw [isStableTrace.go]
    by_cases hpn : p n = false
    · simpa [hpn] using hi
    · by_cases him : i = m
      · simp [hpn, him]
      · by_cases hfp : last = some (f n)
        · simpa [hpn, him, hfp] using hi
        · simp only [if_neg hpn, if_neg him, if_neg hfp]
          exact ih (f n) (i + 1) (some (f n)) (apps + 1) (by omega)

lemma trace_go_apps_le {U : Type} [DecidableEq U] (f : U → U) (p : U → Bool) (m : ℕ) :
    ∀ fuel (n : U) (i : ℕ) (last : Option U) (apps : ℕ),
      (isStableTrace.go f p m fuel n i last apps).apps ≤ apps + fuel + 1 := by
  intro fuel
  induction fuel with
  | zero =>
    intro n i last apps
    rw [isStableTrace.go]
    by_cases hpn : p n = false
    · simp [hpn]
    · by_cases him : i = m
      · simp [hpn, him]
      · by_cases hfp : last = some (f n)
        · simp [hpn, him, hfp]
        · simp [hpn, him, hfp]
  | succ fuel ih =>
    intro n i last apps
    rw [isStableTrace.go]
    by_cases hpn : p n = false
    · simp [hpn]
      omega
    · by_cases him : i = m
      · simp [hpn, him]
        omega
      · by_cases hfp : last = some (f n)
        · simp [hpn, him, hfp]
        · simp only [if_neg hpn, if_neg him, if_neg hfp]
          calc (isStableTrace.go f p m fuel (f n) (i + 1) (some (f n)) (apps + 1)).apps
              ≤ (apps + 1) + fuel + 1 := ih (f n) (i + 1) (some (f n)) (apps + 1)
            _ ≤ apps + (fuel + 1) + 1 := by omega

lemma trace_go_no_fuelOut {U : Type} [DecidableEq U] (f : U → U) (p : U → Bool) (m : ℕ) :
    ∀ fuel (n : U) (i : ℕ) (last : Option U) (apps : ℕ), i + fuel = m →
      (isStableTrace.go f p m fuel n i last apps).reason ≠ ExitReason.fuelOut := by
  intro fuel
  induction fuel with
  | zero =>
    intro n i last apps hi
    rw [isStableTrace.go]
    by_cases hpn : p n = false
    · simp [hpn]
    · have him : i = m := by omega
      simp [hpn, him]
  | succ fuel ih =>
    intro n i last apps hi
    rw [isStableTrace.go]
    by_cases hpn : p n = false
    · simp [hpn]
    · by_cases him : i = m
      · simp [hpn, him]
      · by_cases hfp : last = some (f n)
        · simp [hpn, him, hfp]
        · simp only [if_neg hpn, if_neg him, if_neg hfp]
          exact ih (f n) (i + 1) (some (f n)) (apps + 1) (by omega)

lemma trace_go_apps_eq {U : Type} [DecidableEq U] (f : U → U) (p : U → Bool) (m : ℕ) :
    ∀ fuel (n : U) (i : ℕ) (last : Option U) (apps : ℕ),
      (isStableTrace.go f p m fuel n i last apps).apps + i =
        apps + (isStableTrace.go f p m fuel n i last apps).count +
          (if (isStableTrace.go f p m fuel n i last apps).reason = ExitReason.fixedPoint ∨
              (isStableTrace.go f p m fuel n i last apps).reason = ExitReason.fuelOut
           then 1 else 0) := by
  intro fuel
  induction fuel with
  | zero =>
    intro n i last apps
    rw [isStableTrace.go]
    by_cases hpn : p n = false
    · simp [hpn]
    · by_cases him : i = m
      · simp [hpn, him]
      · by_cases hfp : last = some (f n)
        · simp [hpn, him, hfp]; omega
        · simp [hpn, him, hfp]; omega
  | succ fuel ih =>
    intro n i last apps
    rw [isStableTrace.go]
    by_cases hpn : p n = false
    · simp [hpn]
    · by_cases him : i = m
      · simp [hpn, him]
      · by_cases hfp : last = some (f n)
        · simp [hpn, him, hfp]; omega
        · simp only [if_neg hpn, if_neg him, if_neg hfp]
          have h := ih (f n) (i + 1) (some (f n)) (apps + 1)
          omega

lemma trace_go_stable_iff {U : Type} [DecidableEq U] (f : U → U) (p : U → Bool) (m : ℕ) :
    ∀ fuel (n : U) (i : ℕ) (last : Option U) (apps : ℕ),
      ((isStableTrace.go f p m fuel n i last apps).stable = false ↔
        (isStableTrace.go f p m fuel n i last apps).reason = ExitReason.escaped) := by
  intro fuel
  induction fuel with
  | zero =>
    intro n i last apps
    rw [isStableTrace.go]
    by_cases hpn : p n = false
    · simp [hpn]
    · by_cases him : i = m
      · simp [hpn, him]
      · by_cases hfp : last = some (f n)
        · simp [hpn, him, hfp]
        · simp [hpn, him, hfp]
  | succ fuel ih =>
    intro n i last apps
    rw [isStableTrace.go]
    by_cases hpn : p n = false
    · simp [hpn]
    · by_cases him : i = m
      · simp [hpn, him]
      · by_cases hfp : last = some (f n)
        · simp [hpn, him, hfp]
        · simp only [if_neg hpn, if_neg him, if_neg hfp]
          exact ih (f n) (i + 1) (some (f n)) (apps + 1)

end IterativeStability

namespace IterativeStability

/-- Claim C1: the iteration engine `is_stable(transition, initial,
stability_predicate, max_iterations)` implements exactly the spec's loop:
from `n = initial, i = 0, previous = none`, return `(i, false)` when the
predicate rejects `n`; return `(i, true)` when `i` reaches `max_iterations`;
otherwise apply the transition once and, if `previous` is set and the new
value equals the pre-transition value under exact structural equality, return
`(i, true)` (never on the very first application); otherwise update and
repeat. Stated as: the loop written from the spec's words computes the same
result as the code's loop, for every input. -/
theorem is_stable_implements_spec_loop {U : Type} [DecidableEq U]
    (transition : U → U) (initial : U) (stability_predicate : U → Bool)
    (max_iterations : ℕ) :
    specEvaluate transition initial stability_predicate max_iterations =
      is_stable transition initial stability_predicate max_iterations :=
  specEvaluate_eq_is_stable transition initial stability_predicate max_iterations

/-- Claim C4: for every transition function, initial value, predicate and
`max_iterations`, `is_stable` terminates (the fuel-exhaustion branch of the
loop model is never taken), applies the transition function at most
`max_iterations + 1` times, and the returned iteration count never exceeds
`max_iterations`. -/
theorem is_stable_terminates_within_bound {U : Type} [DecidableEq U]
    (f : U → U) (initial : U) (p : U → Bool) (m : ℕ) :
    (isStableTrace f initial p m).reason ≠ ExitReason.fuelOut ∧
    (isStableTrace f initial p m).apps ≤ m + 1 ∧
    (is_stable f initial p m).1 ≤ m := by
  refine ⟨trace_go_no_fuelOut f p m m initial 0 none 0 (by omega), ?_, ?_⟩
  · have h := trace_go_apps_le f p m m initial 0 none 0
    simpa using h
  · have hproj := trace_go_proj f p m m initial 0 none 0
    have hc := trace_go_count_le f p m m initial 0 none 0 (by omega)
    rw [is_stable, ← hproj]
    exact hc

/-- Claim C5 (amended): `is_stable` returns the instrumented run's count and
flag; the flag is false exactly when the stability predicate rejected the
value first; and the number of transition applications equals the returned
count except on a fixed-point exit, where it is the count plus one (the
application that revealed the fixed point is performed but not counted). -/
theorem is_stable_count_and_flag {U : Type} [DecidableEq U]
    (f : U → U) (initial : U) (p : U → Bool) (m : ℕ) :
    is_stable f initial p m =
      ((isStableTrace f initial p m).count, (isStableTrace f initial p m).stable) ∧
    ((isStableTrace f initial p m).stable = false ↔
      (isStableTrace f initial p m).reason = ExitReason.escaped) ∧
    (isStableTrace f initial p m).apps =
      (isStableTrace f initial p m).count +
        (if (isStableTrace f initial p m).reason = ExitReason.fixedPoint then 1 else 0) := by
  refine ⟨(trace_go_proj f p m m initial 0 none 0).symm,
    trace_go_stable_iff f p m m initial 0 none 0, ?_⟩
  have heq := trace_go_apps_eq f p m m initial 0 none 0
  have hno := trace_go_no_fuelOut f p m m initial 0 none 0 (by omega)
  rw [isStableTrace] at *
  by_cases hfp : (isStableTrace.go f p m m initial 0 none 0).reason = ExitReason.fixedPoint
  · rw [if_pos (Or.inl hfp)] at heq
    rw [if_pos hfp]
    omega
  · rw [if_neg hfp]
    rw [if_neg (by tauto)] at heq
    omega

/-- Claim C5 (counterexample): with the identity transition from 0, an
always-true predicate and budget 5, the engine exits by fixed-point detection
returning count 1 after 2 transition applications, so the first component of
the result is not the number of applications performed before exit. -/
theorem is_stable_fixed_point_undercount :
    is_stable (fun n : ℤ => n) 0 (fun _ => true) 5 = (1, true) ∧
    isStableTrace (fun n : ℤ => n) 0 (fun _ => true) 5 =
      ⟨1, true, 2, ExitReason.fixedPoint⟩ ∧
    (isStableTrace (fun n : ℤ => n) 0 (fun _ => true) 5).count ≠
      (isStableTrace (fun n : ℤ => n) 0 (fun _ => true) 5).apps := by
  refine ⟨by decide, by decide, by decide⟩

/-- Claim C10: with `max_iterations = 0`, `is_stable` applies the transition
function zero times and returns `(0, true)` when the predicate accepts the
initial value and `(0, false)` otherwise. -/
theorem is_stable_zero_budget {U : Type} [DecidableEq U]
    (f : U → U) (initial : U) (p : U → Bool) :
    is_stable f initial p 0 = (0, p initial) ∧
    (isStableTrace f initial p 0).apps = 0 := by
  constructor
  · rw [is_stable, is_stable.go]
    by_cases hp : p initial = false
    · simp [hp]
    · simp [hp, (Bool.not_eq_false _).mp hp]
  · rw [isStableTrace, isStableTrace.go]
    by_cases hp : p initial = false
    · simp [hp]
    · simp [hp]

end IterativeStability

namespace IterativeStability

lemma pixel_origin :
    from_screen_pixel_mandelbrot 0 (1, 1)
      (SpaceParams.calc_space_params (-2, 2) (-2, 2) (1, 1)) = (1, true) := by
  simp only [from_screen_pixel_mandelbrot, cart_origin]
  exact engine_zero

lemma seq_eval :
    mandelbrot_calc_screen_space (-2, 2) (-2, 2) (1, 1) = [(1, true)] := by
  have hrange : List.range ((1 * 1 : ℤ)).toNat = [0] := rfl
  simp only [mandelbrot_calc_screen_space, hrange, List.map_cons, List.map_nil,
    Nat.cast_zero]
  rw [pixel_origin]

lemma count_origin :
    (is_stable (fun z : Cplx => (z.powu 2).add ⟨Fl.fin 0, Fl.fin 0⟩)
      ⟨Fl.fin 0, Fl.fin 0⟩ float_stability_check 1000).1 = 1 := by
  rw [engine_zero]

lemma par_eval :
    mandelbrot_calc_screen_space_par execute_gpu (-2, -2) (2, 2) (1, 1) =
      [(1, false)] := by
  have hrange : List.range ((1 * 1 : ℤ)).toNat = [0] := rfl
  simp only [mandelbrot_calc_screen_space_par, wgpu_from_screen_pixels_mandelbrot,
    execute_gpu, hrange, List.map_cons, List.map_nil, Nat.cast_zero]
  rw [cart_origin_par]
  dsimp only
  rw [count_origin]
  norm_num

end IterativeStability

namespace IterativeStability

/-- Claim C2 (counterexample): a raw backend count equal to the per-pixel
engine's iteration cap 1000 is reinterpreted by the batch offload path as
`(1000, false)` - unstable - contradicting the claim's convention that a
count equal to the cap denotes stability. -/
theorem wgpu_cap_count_marked_unstable :
    wgpu_from_screen_pixels_mandelbrot (fun _ => [1000]) [0] (1, 1)
      (SpaceParams.new (0, 0) (0, 0) (1, 1)) = [(1000, false)] := by
  simp [wgpu_from_screen_pixels_mandelbrot]

/-- Claim C2 (amended): the batch offload path reinterprets each raw backend
count `c` as the pair `(c, c = 500)`: stability is denoted by the fixed
constant 500, not by the per-pixel engine's iteration cap 1000, with the
input coordinate order preserved in the output. -/
theorem wgpu_reinterprets_500_as_stable :
    ∀ (gpu : List (ℚ × ℚ) → List ℕ) (index : List ℤ) (resolution : ℤ × ℤ)
      (sp : SpaceParams),
      wgpu_from_screen_pixels_mandelbrot gpu index resolution sp =
        (gpu (index.map
          (fun i => from_screen_point_to_cartesian i resolution sp))).map
          (fun c => (c, decide (c = 500))) := by
  intro gpu index resolution sp
  rw [wgpu_from_screen_pixels_mandelbrot]
  have hfn : (fun i : ℕ => if i = 500 then (i, true) else (i, false)) =
      fun c : ℕ => (c, decide (c = 500)) := by
    funext c
    by_cases h : c = 500 <;> simp [h]
  rw [hfn]

/-- Claim C3 (counterexample): at bounds `(-2,-2)..(2,2)` and resolution
`1 x 1`, the parallel Mandelbrot generation (which delegates to the batch
offload path, here with the spec-modelled backend) yields `[(1, false)]`
while the sequential generation yields `[(1, true)]`, so the two output
sequences are not identical. -/
theorem parallel_differs_from_sequential_at_origin :
    mandelbrot_calc_screen_space_par execute_gpu (-2, -2) (2, 2) (1, 1) =
      [(1, false)] ∧
    mandelbrot_calc_screen_space (-2, 2) (-2, 2) (1, 1) = [(1, true)] ∧
    mandelbrot_calc_screen_space_par execute_gpu (-2, -2) (2, 2) (1, 1) ≠
      mandelbrot_calc_screen_space (-2, 2) (-2, 2) (1, 1) := by
  refine ⟨par_eval, seq_eval, ?_⟩
  rw [par_eval, seq_eval]
  simp

/-- Claim C3 (amended): the parallel Mandelbrot generation delegates to the
batch offload path, whose count-threshold stability convention cannot
reproduce the sequential engine's fixed-point exit: at bounds
`(-2,-2)..(2,2)` and resolution `1 x 1` the parallel output differs from the
sequential output for every possible backend. -/
theorem parallel_differs_for_every_backend :
    ∀ gpu : List (ℚ × ℚ) → List ℕ,
      mandelbrot_calc_screen_space_par gpu (-2, -2) (2, 2) (1, 1) ≠
        mandelbrot_calc_screen_space (-2, 2) (-2, 2) (1, 1) := by
  intro gpu h
  rw [seq_eval] at h
  have hrange : List.range ((1 * 1 : ℤ)).toNat = [0] := rfl
  simp only [mandelbrot_calc_screen_space_par, wgpu_from_screen_pixels_mandelbrot,
    hrange, List.map_cons, List.map_nil, Nat.cast_zero] at h
  rcases hl : gpu [from_screen_point_to_cartesian 0 (1, 1)
      (SpaceParams.new (-2, -2) (2, 2) (1, 1))] with _ | ⟨c, rest⟩
  · rw [hl] at h
    simp at h
  · rw [hl] at h
    simp only [List.map_cons] at h
    have hc := (List.cons.inj h).1
    by_cases h500 : c = 500
    · rw [if_pos h500] at hc
      exact absurd (congrArg Prod.fst hc) (by simp [h500])
    · rw [if_neg h500] at hc
      exact absurd (congrArg Prod.snd hc) (by simp)

/-- Claim C6 (counterexample): the generators' stability predicate accepts
the value with real part negative infinity (since `-inf < inf` holds under
IEEE comparison), although that component is not finite, so the predicate is
not equivalent to requiring `|re| < inf` and `|im| < inf`. -/
theorem float_check_accepts_negative_infinity :
    float_stability_check ⟨Fl.negInf, Fl.fin 0⟩ = true ∧
    spec_finite_check ⟨Fl.negInf, Fl.fin 0⟩ = false := by
  exact ⟨by decide, by decide⟩

/-- Claim C6 (amended): for every pixel, the Mandelbrot generator runs the
iteration engine with `transition z = z^2 + c` (`c` the pixel coordinate),
initial value 0, cap 1000, and the stability predicate
`re(z) < inf && im(z) < inf` under IEEE comparison (which rejects NaN and
`+inf` components but accepts `-inf` components); the Julia generator uses
the same predicate and cap, with initial value the pixel coordinate and a
caller-supplied constant. -/
theorem generators_engine_arguments :
    ∀ (index : ℤ) (resolution : ℤ × ℤ) (sp : SpaceParams) (c_ : Fl × Fl),
      from_screen_pixel_mandelbrot index resolution sp =
        is_stable
          (fun z : Cplx => (z.powu 2).add
            ⟨Fl.fin (from_screen_point_to_cartesian index resolution sp).1,
             Fl.fin (from_screen_point_to_cartesian index resolution sp).2⟩)
          ⟨Fl.fin 0, Fl.fin 0⟩ float_stability_check 1000 ∧
      from_screen_pixel_julia index resolution sp c_ =
        is_stable (fun z : Cplx => (z.powu 2).add ⟨c_.1, c_.2⟩)
          ⟨Fl.fin (from_screen_point_to_cartesian index resolution sp).1,
           Fl.fin (from_screen_point_to_cartesian index resolution sp).2⟩
          float_stability_check 1000 ∧
      (∀ z : Cplx, float_stability_check z = (z.re.lt Fl.inf && z.im.lt Fl.inf)) :=
  fun _ _ _ _ => ⟨rfl, rfl, fun _ => rfl⟩

/-- Claim C7 (counterexample): with `lower.x = 1`, `upper.x = 0`, the
constructed scale component is `1 = |0 - 1|`, not `upper - lower = -1`: the
constructor takes the absolute value of the per-axis difference. -/
theorem space_params_scale_is_absolute :
    (SpaceParams.new (1, 0) (0, 1) (1, 1)).scale.1 = 1 ∧
    ((0 : ℚ) - 1 ≠ 1) := by
  constructor
  · simp only [SpaceParams.new]
    norm_num
  · norm_num

/-- Claim C7 (amended): for every bounds pair and resolution with positive
components, the space-parameter constructor computes per axis
`scale = |upper - lower|` (absolute value, not the signed difference),
`offset = (lower + upper) / 2`, and `delta = scale / resolution`. -/
theorem space_params_new_formula :
    ∀ (lower upper : ℚ × ℚ) (resolution : ℤ × ℤ),
      0 < resolution.1 → 0 < resolution.2 →
      SpaceParams.new lower upper resolution =
        { scale := (|upper.1 - lower.1|, |upper.2 - lower.2|),
          offset := ((lower.1 + upper.1) / 2, (lower.2 + upper.2) / 2),
          delta := (|upper.1 - lower.1| / (resolution.1 : ℚ),
                    |upper.2 - lower.2| / (resolution.2 : ℚ)) } :=
  fun _ _ _ _ _ => rfl

/-- Witness for C7's amended theorem at `lower = (0,0)`, `upper = (1,1)`,
`resolution = (1,1)`. -/
theorem space_params_new_formula_witness :
    SpaceParams.new (0, 0) (1, 1) (1, 1) =
      { scale := (|(1 : ℚ) - 0|, |(1 : ℚ) - 0|),
        offset := ((0 + 1 : ℚ) / 2, (0 + 1 : ℚ) / 2),
        delta := (|(1 : ℚ) - 0| / ((1 : ℤ) : ℚ), |(1 : ℚ) - 0| / ((1 : ℤ) : ℚ)) } :=
  space_params_new_formula (0, 0) (1, 1) (1, 1) (by decide) (by decide)

/-- Claim C8: for every pixel index in `[0, width*height)` and space
parameters, the pixel-to-coordinate mapping decomposes the index as
`(column, row) = (index mod width, index div width)`, recenters to
`(column - width/2, -row + height/2)` with truncating integer division, and
returns `(recentered * delta) + offset` component-wise. -/
theorem pixel_to_coordinate_decomposition :
    ∀ (index w h : ℤ) (sp : SpaceParams),
      0 ≤ index → 0 < w → 0 < h → index < w * h →
      from_screen_point_to_cartesian index (w, h) sp =
        (((index % w - Int.tdiv w 2 : ℤ) : ℚ) * sp.delta.1 + sp.offset.1,
         ((-(index / w) + Int.tdiv h 2 : ℤ) : ℚ) * sp.delta.2 + sp.offset.2) := by
  intro index w h sp hidx hw _hh _hwh
  rw [from_screen_point_to_cartesian]
  rw [Int.tmod_eq_emod hidx (le_of_lt hw), Int.tdiv_eq_ediv hidx (le_of_lt hw)]

/-- Witness for C8's theorem at index 3 of a 2 x 2 raster. -/
theorem pixel_to_coordinate_decomposition_witness :
    from_screen_point_to_cartesian 3 (2, 2) (SpaceParams.new (0, 0) (1, 1) (2, 2)) =
      ((((3 : ℤ) % 2 - Int.tdiv 2 2 : ℤ) : ℚ) *
          (SpaceParams.new (0, 0) (1, 1) (2, 2)).delta.1 +
        (SpaceParams.new (0, 0) (1, 1) (2, 2)).offset.1,
       ((-((3 : ℤ) / 2) + Int.tdiv 2 2 : ℤ) : ℚ) *
          (SpaceParams.new (0, 0) (1, 1) (2, 2)).delta.2 +
        (SpaceParams.new (0, 0) (1, 1) (2, 2)).offset.2) :=
  pixel_to_coordinate_decomposition 3 2 2 (SpaceParams.new (0, 0) (1, 1) (2, 2))
    (by decide) (by decide) (by decide) (by decide)

/-- Claim C9: for every pair of bounds (including reversed ones) and every
resolution, the scale components stored in `SpaceParams` are non-negative
(each is an absolute value), and the delta components are non-negative
whenever the corresponding resolution component is positive. -/
theorem space_params_scale_delta_nonneg :
    ∀ (lower upper : ℚ × ℚ) (resolution : ℤ × ℤ),
      0 ≤ (SpaceParams.new lower upper resolution).scale.1 ∧
      0 ≤ (SpaceParams.new lower upper resolution).scale.2 ∧
      (0 < resolution.1 → 0 ≤ (SpaceParams.new lower upper resolution).delta.1) ∧
      (0 < resolution.2 → 0 ≤ (SpaceParams.new lower upper resolution).delta.2) := by
  intro lower upper resolution
  simp only [SpaceParams.new]
  refine ⟨abs_nonneg _, abs_nonneg _, fun h => ?_, fun h => ?_⟩
  · exact div_nonneg (abs_nonneg _) (by exact_mod_cast (le_of_lt h))
  · exact div_nonneg (abs_nonneg _) (by exact_mod_cast (le_of_lt h))

end IterativeStability
